import Mathlib

/-!
Verification of the Morning-Brief market-analysis scoring core.

Shallow embedding of the Relevance Scoring Engine
(`src/services/relevanceScorer.ts`), the recency utility
(`TimeUtils.getRecencyScore`) and the Cross-Source Snapshot Aggregator
(`src/tools/unified.ts`).

Modelling conventions:
* JavaScript strings are Lean `String`s; `String.prototype.includes`,
  `toLowerCase`/`toUpperCase` are modelled over ASCII (`Char.toLower` /
  `Char.toUpper`), which agrees with JavaScript on the ASCII texts the
  claims are about.
* JavaScript numbers are modelled as exact rationals extended with a
  `NaN` element (`JSNum`).  IEEE rounding is abstracted away (every claim
  here is about ranges, ordering and NaN-propagation, all of which are
  insensitive to rounding); the non-finite values produced by division
  are collapsed into `JSNum.nan` — no claim exercises a division by zero.
* `Math.exp` is kept abstract: definitions that need it take a function
  `jsExp : Rat → Rat` as a parameter, and theorems assume only the bounds
  that the IEEE `exp` satisfies (`0 ≤ exp x ≤ 1` for `x ≤ 0`).
* `new Date(timestamp).getTime()` is abstracted into a `JSNum` argument:
  a timestamp string that parses gives `JSNum.num` of its epoch value,
  and a malformed timestamp gives `JSNum.nan`, exactly as in JavaScript.
-/

/-! ## JavaScript number model -/

/-- A JavaScript number: either a finite value (modelled exactly as a
rational) or `NaN`.  Infinities, which no claim exercises, are collapsed
into `nan`. -/
inductive JSNum where
  | num : Rat → JSNum
  | nan : JSNum
deriving DecidableEq, Repr

/-- JavaScript subtraction: `NaN` propagates. -/
def JSNum.sub : JSNum → JSNum → JSNum
  | .num a, .num b => .num (a - b)
  | _, _ => .nan

/-- JavaScript addition: `NaN` propagates. -/
def JSNum.add : JSNum → JSNum → JSNum
  | .num a, .num b => .num (a + b)
  | _, _ => .nan

/-- JavaScript multiplication by a finite constant: `NaN` propagates. -/
def JSNum.mulC : JSNum → Rat → JSNum
  | .num a, b => .num (a * b)
  | .nan, _ => .nan

/-- JavaScript division by a finite constant.  `NaN` propagates; division
by zero (which yields an infinity or `NaN` in JavaScript, and which no
claim exercises) is collapsed into `nan`. -/
def JSNum.divC : JSNum → Rat → JSNum
  | .num a, b => if b = 0 then .nan else .num (a / b)
  | .nan, _ => .nan

/-- The JavaScript comparison `x < c` as a boolean: false when `x` is
`NaN`. -/
def JSNum.ltB : JSNum → Rat → Bool
  | .num a, c => a < c
  | .nan, _ => false

/-- The JavaScript comparison `x > c` as a boolean: false when `x` is
`NaN`. -/
def JSNum.gtB : JSNum → Rat → Bool
  | .num a, c => c < a
  | .nan, _ => false

/-- `Math.max(c, x)` for a finite constant `c`: `NaN` if `x` is `NaN`. -/
def jsMax (c : Rat) : JSNum → JSNum
  | .num a => .num (max c a)
  | .nan => .nan

/-- `Math.min(c, x)` for a finite constant `c`: `NaN` if `x` is `NaN`. -/
def jsMin (c : Rat) : JSNum → JSNum
  | .num a => .num (min c a)
  | .nan => .nan

/-- `Math.exp` lifted to `JSNum`: `Math.exp(NaN)` is `NaN`. -/
def jsExpN (jsExp : Rat → Rat) : JSNum → JSNum
  | .num a => .num (jsExp a)
  | .nan => .nan

/-- A `JSNum` is a finite number lying in the closed interval
`[lo, hi]`.  `NaN` is in no interval. -/
def JSNum.inRange (x : JSNum) (lo hi : Rat) : Prop :=
  ∃ q : Rat, x = .num q ∧ lo ≤ q ∧ q ≤ hi

instance (x : JSNum) (lo hi : Rat) : Decidable (x.inRange lo hi) := by
  unfold JSNum.inRange
  cases x with
  | num q =>
      refine decidable_of_iff (lo ≤ q ∧ q ≤ hi) ?_
      constructor
      · intro h; exact ⟨q, rfl, h.1, h.2⟩
      · rintro ⟨q2, hq, h1, h2⟩
        cases hq
        exact ⟨h1, h2⟩
  | nan =>
      refine decidable_of_iff False ?_
      constructor
      · intro h; exact h.elim
      · rintro ⟨q, hq, -, -⟩; cases hq

/-! ## JavaScript string primitives -/

/-- `String.prototype.toLowerCase`, over ASCII. -/
def jsToLower (s : String) : String :=
  String.mk (s.toList.map Char.toLower)

/-- `String.prototype.toUpperCase`, over ASCII. -/
def jsToUpper (s : String) : String :=
  String.mk (s.toList.map Char.toUpper)

/-- Auxiliary: the pattern (first argument) is a leading segment of the
haystack (second argument). -/
def charsLead : List Char → List Char → Bool
  | [], _ => true
  | _ :: _, [] => false
  | p :: ps, h :: hs => p == h && charsLead ps hs

/-- Auxiliary: the pattern occurs contiguously somewhere in the
haystack. -/
def charsOccur (pat : List Char) : List Char → Bool
  | [] => pat.isEmpty
  | h :: hs => charsLead pat (h :: hs) || charsOccur pat hs

/-- `haystack.includes(pattern)` for JavaScript strings. -/
def jsIncludes (hay pat : String) : Bool :=
  charsOccur pat.toList hay.toList

/-- `[...new Set(xs)]` for JavaScript: deduplicate, keeping the first
occurrence of each element, in order. -/
def jsDedupAux [DecidableEq α] (seen : List α) : List α → List α
  | [] => []
  | x :: xs =>
      if x ∈ seen then jsDedupAux seen xs
      else x :: jsDedupAux (x :: seen) xs

/-- `[...new Set(xs)]`: first-occurrence deduplication. -/
def jsDedup [DecidableEq α] (xs : List α) : List α :=
  jsDedupAux [] xs

/-! ## Relevance configuration (`RelevanceConfig` in `relevanceScorer.ts`) -/

/-- The three keyword tiers of `RelevanceConfig.marketKeywords`. -/
structure KeywordTiers where
  high : List String
  medium : List String
  low : List String
deriving Repr

/-- The four weights of `RelevanceConfig.weights`. -/
structure ScoreWeights where
  marketKeywords : Rat
  stockSymbols : Rat
  sourceAuthority : Rat
  recency : Rat
deriving Repr

/-- `RelevanceConfig` from `relevanceScorer.ts`. -/
structure RelevanceConfig where
  marketKeywords : KeywordTiers
  weights : ScoreWeights
deriving Repr

/-! ## Market keyword scoring (`calculateMarketKeywordScore`) -/

/-- One pass of `calculateMarketKeywordScore` over a keyword tier: for
each keyword in order, if `text.includes(keyword.toLowerCase())` then the
keyword is appended to the found tags and `pts` added to the score. -/
def kwTierPass (text : String) (pts : Rat) (kws : List String)
    (acc : Rat × List String) : Rat × List String :=
  kws.foldl
    (fun a kw =>
      if jsIncludes text (jsToLower kw) then (a.1 + pts, a.2 ++ [kw]) else a)
    acc

/-- `RelevanceScorer.calculateMarketKeywordScore`: high keywords are worth
15 points each, medium 8, low 3; the score is capped at 100 and the found
tags are deduplicated. -/
def calculateMarketKeywordScore (cfg : RelevanceConfig) (text : String) :
    Rat × List String :=
  let a0 := kwTierPass text 15 cfg.marketKeywords.high (0, [])
  let a1 := kwTierPass text 8 cfg.marketKeywords.medium a0
  let a2 := kwTierPass text 3 cfg.marketKeywords.low a1
  (min 100 a2.1, jsDedup a2.2)

/-! ## Stock symbol extraction (`calculateStockSymbolScore`,
`filterValidStockSymbols`) -/

/-- A JavaScript word character (`\w` without the `u` flag):
ASCII letter, ASCII digit, or underscore. -/
def isWordChar (c : Char) : Bool :=
  c.isAlpha || c.isDigit || c == '_'

/-- An ASCII uppercase letter, i.e. a character matched by `[A-Z]`. -/
def isUpperAZ (c : Char) : Bool :=
  'A' ≤ c && c ≤ 'Z'

/-- Split a character list into its maximal runs of word characters.
`cur` is the current run, accumulated in reverse. -/
def tokenizeAux (cur : List Char) : List Char → List (List Char)
  | [] => if cur.isEmpty then [] else [cur.reverse]
  | c :: cs =>
      if isWordChar c then tokenizeAux (c :: cur) cs
      else if cur.isEmpty then tokenizeAux [] cs
      else cur.reverse :: tokenizeAux [] cs

/-- The maximal word-character runs of a string, in order. -/
def wordTokens (s : String) : List (List Char) :=
  tokenizeAux [] s.toList

/-- Whether a whole token matches `[A-Z]{1,5}(?:\d{0,2})?`: one to five
uppercase letters followed by at most two digits.  Because `\b` holds
only at the edges of a maximal word-character run, a match of the
anchored pattern `\b[A-Z]{1,5}(?:\d{0,2})?\b` must cover a whole token,
so `text.match(regex)` returns exactly the tokens accepted here. -/
def tokenMatchesSymbol (t : List Char) : Bool :=
  let letters := t.takeWhile isUpperAZ
  let rest := t.dropWhile isUpperAZ
  decide (1 ≤ letters.length) && decide (letters.length ≤ 5) &&
    rest.all Char.isDigit && decide (rest.length ≤ 2)

/-- `text.match(this.stockSymbolRegex) || []` for the scorer regex
`/\b[A-Z]{1,5}(?:\d{0,2})?\b/g`: the word tokens of the original-case
text that match the symbol pattern, in order. -/
def stockSymbolMatches (text : String) : List String :=
  ((wordTokens text).filter tokenMatchesSymbol).map String.mk

/-- The denylist of common uppercase English words from
`filterValidStockSymbols`. -/
def excludeList : List String :=
  ["THE", "AND", "FOR", "ARE", "BUT", "NOT", "YOU", "ALL", "CAN", "HER",
   "WAS", "ONE", "OUR", "HAD", "BUT", "HAS", "HIS", "HIM", "WHO", "OIL",
   "GAS", "NEW", "NOW", "TWO", "WAY", "ITS", "MAY", "DAY", "GET", "USE",
   "MAN", "OLD", "SEE", "HOW", "ILL", "BIG", "PUT", "END", "WHY", "LET",
   "SAY", "SHE", "TRY", "FAR", "RUN", "OWN", "BACK", "CALL", "CAME",
   "EACH", "FIND", "GOOD", "HAND", "HIGH", "KEEP", "LAST", "LEFT",
   "LIFE", "LIVE", "LONG", "LOOK", "MADE", "MAKE", "MANY", "MOST",
   "MOVE", "MUCH", "NAME", "NEED", "NEXT", "OPEN", "OVER", "PART",
   "PLAY", "SAID", "SAME", "SEEM", "SHOW", "SIDE", "TAKE", "TELL",
   "THAN", "THAT", "THEM", "THIS", "TIME", "TURN", "USED", "VERY",
   "WANT", "WAYS", "WELL", "WENT", "WERE", "WHAT", "WHEN", "WHERE",
   "WILL", "WITH", "WORD", "WORK", "YEAR", "YOUR"]

/-- `RelevanceScorer.filterValidStockSymbols`: keep candidates of length
1 to 5 that are unchanged by `toUpperCase`, are not on the denylist, and
contain at least one uppercase letter. -/
def filterValidStockSymbols (candidates : List String) : List String :=
  candidates.filter fun c =>
    if c.length < 1 || c.length > 5 then false
    else if c ≠ jsToUpper c then false
    else if c ∈ excludeList then false
    else c.toList.any isUpperAZ

/-- The hard-coded major-symbol list of `calculateStockSymbolScore`. -/
def majorSymbols : List String :=
  ["AAPL", "MSFT", "GOOGL", "AMZN", "TSLA", "META", "NVDA", "SPY", "QQQ"]

/-- `RelevanceScorer.calculateStockSymbolScore`: regex-match the
original-case text, deduplicate, filter; 20 points per symbol capped at
100, then 10 bonus points per major symbol, capped at 100 again. -/
def calculateStockSymbolScore (text : String) : Rat × List String :=
  let found := stockSymbolMatches text
  let symbols := filterValidStockSymbols (jsDedup found)
  if symbols.length = 0 then (0, [])
  else
    let score : Rat := min 100 ((symbols.length : Rat) * 20)
    let majorFound := symbols.filter (fun s => majorSymbols.contains s)
    let score2 := score + (majorFound.length : Rat) * 10
    (min 100 score2, symbols)

/-! ## Source authority (`sourceAuthorityMap`,
`calculateSourceAuthorityScore`, `updateSourceAuthority`) -/

/-- An insertion-ordered map, modelling a JavaScript `Map`. -/
abbrev AuthMap := List (String × Rat)

/-- `Map.prototype.get` combined with `has`: the value at an exactly
matching key, if any. -/
def mapGet (m : AuthMap) (k : String) : Option Rat :=
  (m.find? (fun p => p.1 == k)).map (fun p => p.2)

/-- `Map.prototype.set`: update the first binding of the key in place,
else append a new binding. -/
def mapSet : AuthMap → String → Rat → AuthMap
  | [], k, v => [(k, v)]
  | (k2, v2) :: rest, k, v =>
      if k2 = k then (k, v) :: rest else (k2, v2) :: mapSet rest k v

/-- The initial `sourceAuthorityMap` built in the `RelevanceScorer`
constructor. -/
def initAuthorityMap : AuthMap :=
  [("Bloomberg API", 100), ("Reuters API", 95), ("Financial Times", 90),
   ("Wall Street Journal", 90), ("MarketWatch", 80), ("Yahoo Finance", 75),
   ("CNBC", 70), ("Chat with Traders", 85),
   ("The Meb Faber Research Podcast", 80), ("Gmail", 60)]

/-- `RelevanceScorer.calculateSourceAuthorityScore`: exact map lookup
first, then case-insensitive substring fallbacks, then the default 50. -/
def calculateSourceAuthorityScore (m : AuthMap) (sourceName : String) : Rat :=
  match mapGet m sourceName with
  | some v => v
  | none =>
      let lower := jsToLower sourceName
      if jsIncludes lower "bloomberg" then 95
      else if jsIncludes lower "reuters" then 90
      else if jsIncludes lower "financial times" || jsIncludes lower "ft.com" then 90
      else if jsIncludes lower "wall street journal" || jsIncludes lower "wsj" then 90
      else if jsIncludes lower "marketwatch" then 80
      else if jsIncludes lower "yahoo finance" then 75
      else if jsIncludes lower "cnbc" then 70
      else if jsIncludes lower "seeking alpha" then 65
      else if jsIncludes lower "motley fool" then 60
      else 50

/-- `RelevanceScorer.updateSourceAuthority`: store the authority value
clamped into `[0, 100]`. -/
def updateSourceAuthority (m : AuthMap) (sourceName : String) (authority : Rat) :
    AuthMap :=
  mapSet m sourceName (max 0 (min 100 authority))

/-- `RelevanceScorer.getSourceAuthority` just delegates to
`calculateSourceAuthorityScore`. -/
def getSourceAuthority (m : AuthMap) (sourceName : String) : Rat :=
  calculateSourceAuthorityScore m sourceName

/-! ## Recency (`TimeUtils.getRecencyScore`) -/

/-- `TimeUtils.getRecencyScore` from `timeUtils.ts`.  `now` is
`Date.now()` in milliseconds; `targetTime` is
`new Date(timestamp).getTime()`, which is `JSNum.nan` when the timestamp
string does not parse.  Note that when `targetTime` is `nan`, `ageHours`
is `nan`, both comparisons are false, and the result is `nan`. -/
def getRecencyScore (jsExp : Rat → Rat) (now : Rat) (targetTime : JSNum)
    (maxHours : Rat) : JSNum :=
  let ageHours := (JSNum.sub (.num now) targetTime).divC (1000 * 60 * 60)
  if ageHours.ltB 0 then .num 0
  else if ageHours.gtB maxHours then .num 0
  else ((jsExpN jsExp (ageHours.mulC (-1) |>.divC (maxHours / 3))).mulC 100)

/-- `RelevanceScorer.calculateRecencyScore`: a 48-hour window. -/
def calculateRecencyScore (jsExp : Rat → Rat) (now : Rat) (targetTime : JSNum) :
    JSNum :=
  getRecencyScore jsExp now targetTime 48

/-! ## The scorer state and its constructor -/

/-- The mutable/constructed state of a `RelevanceScorer` instance: its
configuration and its source-authority map (the stock-symbol regex is a
fixed literal, folded into `stockSymbolMatches`). -/
structure ScorerState where
  config : RelevanceConfig
  sourceAuthorityMap : AuthMap

/-- The `RelevanceScorer` constructor.  The TypeScript constructor only
stores the configuration and builds the initial authority map; it
performs no validation of the configuration and cannot throw.  The
`Except` codomain expresses the possibility of a constructor-time
configuration error, so that its absence can be stated; the code always
returns successfully. -/
def mkRelevanceScorer (config : RelevanceConfig) : Except String ScorerState :=
  .ok { config := config, sourceAuthorityMap := initAuthorityMap }

/-! ## `scoreContent` -/

/-- The value returned by `RelevanceScorer.scoreContent`.  The four
breakdown fields are inlined: `marketKeywords`, `stockSymbols` and
`sourceAuthority` are always finite, while `recency` and the final
`score` are JavaScript numbers that can be `NaN`. -/
structure ScoreResult where
  score : JSNum
  bdMarketKeywords : Rat
  bdStockSymbols : Rat
  bdSourceAuthority : Rat
  bdRecency : JSNum
  marketTags : List String
  symbols : List String
deriving DecidableEq, Repr

/-- `RelevanceScorer.scoreContent`.  `jsExp` abstracts `Math.exp`; `now`
is `Date.now()`; `timestamp` is the already-parsed
`new Date(timestamp).getTime()` value (`JSNum.nan` for a malformed
timestamp string). -/
def scoreContent (jsExp : Rat → Rat) (st : ScorerState)
    (title content sourceName : String) (timestamp : JSNum) (now : Rat) :
    ScoreResult :=
  let text := jsToLower (title ++ " " ++ content)
  let kw := calculateMarketKeywordScore st.config text
  let sym := calculateStockSymbolScore (title ++ " " ++ content)
  let auth := calculateSourceAuthorityScore st.sourceAuthorityMap sourceName
  let recencyScore := calculateRecencyScore jsExp now timestamp
  let w := st.config.weights
  let totalWeight := w.marketKeywords + w.stockSymbols + w.sourceAuthority + w.recency
  let weightedSum : JSNum :=
    (JSNum.num (kw.1 / 100 * w.marketKeywords + sym.1 / 100 * w.stockSymbols +
        auth / 100 * w.sourceAuthority)).add
      ((recencyScore.divC 100).mulC w.recency)
  let finalScore := (weightedSum.divC totalWeight).mulC 100
  { score := jsMin 100 (jsMax 0 finalScore)
    bdMarketKeywords := kw.1
    bdStockSymbols := sym.1
    bdSourceAuthority := auth
    bdRecency := recencyScore
    marketTags := kw.2
    symbols := sym.2 }

/-! ## Sentiment (`extractSentiment`) -/

/-- The three-valued sentiment result. -/
inductive Sentiment where
  | positive
  | negative
  | neutral
deriving DecidableEq, Repr

/-- The fixed positive-word list of `extractSentiment`. -/
def positiveWords : List String :=
  ["bull", "bullish", "gain", "gains", "rise", "rises", "rising", "up",
   "surge", "surges", "surging", "jump", "jumps", "jumping", "rally",
   "rallies", "rallying", "boost", "boosts", "strong", "strength",
   "outperform", "beat", "beats", "exceed", "exceeds", "growth",
   "positive", "optimistic", "upgrade", "upgrades", "buy", "recommend"]

/-- The fixed negative-word list of `extractSentiment`. -/
def negativeWords : List String :=
  ["bear", "bearish", "fall", "falls", "falling", "drop", "drops",
   "dropping", "decline", "declines", "declining", "down", "plunge",
   "plunges", "plunging", "crash", "crashes", "crashing", "weak",
   "weakness", "underperform", "miss", "misses", "below", "concern",
   "concerns", "worry", "worries", "risk", "risks", "negative",
   "pessimistic", "downgrade", "downgrades", "sell"]

/-- `RelevanceScorer.extractSentiment`: each list word contributes 1 to
its count when it occurs as a substring of the lowercased text; the
larger count wins, ties give `neutral`. -/
def extractSentiment (title content : String) : Sentiment :=
  let text := jsToLower (title ++ " " ++ content)
  let positiveCount := (positiveWords.filter (fun w => jsIncludes text w)).length
  let negativeCount := (negativeWords.filter (fun w => jsIncludes text w)).length
  if positiveCount > negativeCount then .positive
  else if negativeCount > positiveCount then .negative
  else .neutral

/-! ## The Cross-Source Snapshot Aggregator (`unified.ts`) -/

/-- A scored `MarketDataItem` as seen by the aggregator, restricted to
the fields `createMarketSnapshot` and `identifyCrossSourcePatterns`
read: `id`, `source` (the source kind string "news" | "podcast" |
"email"), `timestamp` (an ISO string, never consulted by the
aggregator), the relevance score assigned by `enhanceItem`, and the
derived `symbols` and `marketTags` lists. -/
structure MarketDataItem where
  id : String
  source : String
  timestamp : String
  relevanceScore : Rat
  symbols : List String
  marketTags : List String
deriving DecidableEq, Repr

/-- Insert an item into a list already sorted by score descending,
after every element whose score is at least as large.  This is the
insertion step of the stable sort below. -/
def insertByScore (x : MarketDataItem) : List MarketDataItem → List MarketDataItem
  | [] => [x]
  | y :: ys =>
      if y.relevanceScore ≤ x.relevanceScore then x :: y :: ys
      else y :: insertByScore x ys

/-- `allData.sort((a, b) => b.relevanceScore - a.relevanceScore)`:
JavaScript `Array.prototype.sort` is a stable sort, so its result is
the unique reordering that is sorted by score descending and preserves
the input order of equal-score items; this insertion sort produces
exactly that reordering (stability is proved below in
`sortByScoreDesc_filter`). -/
def sortByScoreDesc : List MarketDataItem → List MarketDataItem
  | [] => []
  | x :: xs => insertByScore x (sortByScoreDesc xs)

/-- The per-kind item counts reported in a snapshot. -/
structure SourceBreakdown where
  news : Nat
  podcasts : Nat
  emails : Nat
deriving DecidableEq, Repr

/-- `MarketSnapshot` from `types/marketData.ts`, restricted to the
fields the claims are about (the natural-language `summary` is
omitted). -/
structure Snapshot where
  keyEvents : List MarketDataItem
  crossSourcePatterns : List String
  alertItems : List MarketDataItem
  sourceBreakdown : SourceBreakdown
deriving DecidableEq, Repr

/-- One step of the counting loops in `identifyCrossSourcePatterns`:
record one mention of `key` coming from source kind `src`.  The counts
structure is an insertion-ordered association list
(key ↦ (insertion-ordered set of source kinds, occurrence count)),
modelling the JavaScript `Record` plus `Set` (the keys the aggregator
produces always contain a letter, so the JavaScript integer-like-key
reordering of `Object.entries` never applies). -/
def addMention (key src : String) :
    List (String × List String × Nat) → List (String × List String × Nat)
  | [] => [(key, [src], 1)]
  | e :: rest =>
      if e.1 = key then
        (e.1, (if src ∈ e.2.1 then e.2.1 else e.2.1 ++ [src]), e.2.2 + 1) :: rest
      else e :: addMention key src rest

/-- The `symbolCounts` map of `identifyCrossSourcePatterns`: fold over
all items and, per item, over its `symbols` list. -/
def symbolCounts (allData : List MarketDataItem) :
    List (String × List String × Nat) :=
  allData.foldl (fun m item =>
    item.symbols.foldl (fun m2 s => addMention s item.source m2) m) []

/-- The `tagCounts` map of `identifyCrossSourcePatterns`: fold over all
items and, per item, over its `marketTags` list. -/
def tagCounts (allData : List MarketDataItem) :
    List (String × List String × Nat) :=
  allData.foldl (fun m item =>
    item.marketTags.foldl (fun m2 t => addMention t item.source m2) m) []

/-- The pattern string pushed for a qualifying symbol. -/
def symbolPatternString (symbol : String) (srcs : List String) : String :=
  symbol ++ " mentioned across " ++ toString srcs.length ++ " sources (" ++
    String.intercalate ", " srcs ++ ")"

/-- The pattern string pushed for a qualifying tag. -/
def tagPatternString (tag : String) (srcs : List String) : String :=
  "\"" ++ tag ++ "\" trending across " ++ toString srcs.length ++ " sources"

/-- `UnifiedTools.identifyCrossSourcePatterns`: one pattern per symbol
seen in at least 2 source kinds with at least 3 mentions, then one
pattern per tag seen in at least 2 source kinds with at least 4
mentions, the whole list truncated to 5 entries. -/
def identifyCrossSourcePatterns (allData : List MarketDataItem) : List String :=
  let symPatterns := (symbolCounts allData).filterMap fun e =>
    if 2 ≤ e.2.1.length ∧ 3 ≤ e.2.2 then some (symbolPatternString e.1 e.2.1)
    else none
  let tagPatterns := (tagCounts allData).filterMap fun e =>
    if 2 ≤ e.2.1.length ∧ 4 ≤ e.2.2 then some (tagPatternString e.1 e.2.1)
    else none
  (symPatterns ++ tagPatterns).take 5

/-- `UnifiedTools.createMarketSnapshot` (minus the natural-language
summary): alert items are those scoring at least 80; key events are the
top 3 news, top 2 podcast and top 2 email items of the (already sorted)
input, re-sorted by score and capped at 10; alerts are capped at 5. -/
def createMarketSnapshot (allData : List MarketDataItem)
    (sourceBreakdown : SourceBreakdown) : Snapshot :=
  let alertItems := allData.filter (fun item => 80 ≤ item.relevanceScore)
  let newsByRelevance := (allData.filter (fun item => item.source = "news")).take 3
  let podcastsByRelevance := (allData.filter (fun item => item.source = "podcast")).take 2
  let emailsByRelevance := (allData.filter (fun item => item.source = "email")).take 2
  let keyEvents := sortByScoreDesc (newsByRelevance ++ podcastsByRelevance ++ emailsByRelevance)
  { keyEvents := keyEvents.take 10
    crossSourcePatterns := identifyCrossSourcePatterns allData
    alertItems := alertItems.take 5
    sourceBreakdown := sourceBreakdown }

/-- The snapshot pipeline of `UnifiedTools.getMarketSnapshot` after the
fetches: sort the merged scored items by relevance (line 64 of
`unified.ts`), then build the snapshot.  The source breakdown counts the
merged items per kind, as accumulated during the merge. -/
def aggregateSnapshot (allData : List MarketDataItem) : Snapshot :=
  createMarketSnapshot (sortByScoreDesc allData)
    { news := (allData.filter (fun item => item.source = "news")).length
      podcasts := (allData.filter (fun item => item.source = "podcast")).length
      emails := (allData.filter (fun item => item.source = "email")).length }

/-! ## Specification-side auxiliary definitions

These definitions are used only to *state* the claims independently of
the operational definitions above; the theorems below connect the two. -/

/-- Insert an element at the end of a list unless already present —
the effect of `Set.prototype.add` on an insertion-ordered set. -/
def setInsert [DecidableEq α] (ss : List α) (s : α) : List α :=
  if s ∈ ss then ss else ss ++ [s]

/-- The insertion-ordered set of the elements of a list: first
occurrences, in order. -/
def setOfList [DecidableEq α] (l : List α) : List α :=
  l.foldl setInsert []

/-- The sequence of (symbol, source kind) mention events the
symbol-counting loop of `identifyCrossSourcePatterns` processes, in
order. -/
def symMentions (allData : List MarketDataItem) : List (String × String) :=
  allData.flatMap fun it => it.symbols.map fun s => (s, it.source)

/-- The sequence of (tag, source kind) mention events the tag-counting
loop of `identifyCrossSourcePatterns` processes, in order. -/
def tagMentions (allData : List MarketDataItem) : List (String × String) :=
  allData.flatMap fun it => it.marketTags.map fun t => (t, it.source)

/-- The source kinds of the mention events for a given key, in order,
with multiplicity. -/
def mentionSrcs (ms : List (String × String)) (key : String) : List String :=
  (ms.filter fun e => e.1 = key).map Prod.snd

/-- The total occurrence count of a key across all mention events. -/
def occCount (ms : List (String × String)) (key : String) : Nat :=
  (mentionSrcs ms key).length

/-- The distinct source kinds a key appears in, in first-mention
order. -/
def sourceKindsOf (ms : List (String × String)) (key : String) : List String :=
  setOfList (mentionSrcs ms key)

/-- Exact lookup in a counts map, as built by `addMention`. -/
def countsLookup (m : List (String × List String × Nat)) (key : String) :
    Option (List String × Nat) :=
  (m.find? fun e => decide (e.1 = key)).map Prod.snd

/-- The effect of one mention event on the entry of its key. -/
def entryStep (o : Option (List String × Nat)) (src : String) :
    Option (List String × Nat) :=
  match o with
  | none => some ([src], 1)
  | some (srcs, n) => some (setInsert srcs src, n + 1)

/-- Build a counts map from a flat sequence of mention events. -/
def buildCounts (ms : List (String × String)) :
    List (String × List String × Nat) :=
  ms.foldl (fun m e => addMention e.1 e.2 m) []

/-- The intended value of a counts map after processing mention events
`ms`: one entry per distinct key, in first-mention order, carrying the
distinct source kinds of the key and its total occurrence count. -/
def countsSpec (ms : List (String × String)) :
    List (String × List String × Nat) :=
  (setOfList (ms.map Prod.fst)).map fun k =>
    (k, sourceKindsOf ms k, occCount ms k)

/-- The ordering relation imposed by the comparator
`(a, b) => b.relevanceScore - a.relevanceScore`. -/
def scoreGE (a b : MarketDataItem) : Prop :=
  b.relevanceScore ≤ a.relevanceScore

/-! ## Concrete fixtures used by counterexamples and witnesses -/

/-- The configuration of the unit-test suite for `RelevanceScorer`
(`tests/unit` fixture `mockConfig`). -/
def testConfig : RelevanceConfig :=
  { marketKeywords :=
      { high := ["earnings", "IPO", "merger", "acquisition", "bull market",
                 "bear market"]
        medium := ["stock", "market", "trading", "investment", "portfolio",
                   "dividend"]
        low := ["price", "volume", "analysis", "report", "news", "update"] }
    weights :=
      { marketKeywords := 30, stockSymbols := 25, sourceAuthority := 25,
        recency := 20 } }

/-- A freshly constructed scorer state over `testConfig`. -/
def testState : ScorerState :=
  { config := testConfig, sourceAuthorityMap := initAuthorityMap }

/-- A configuration with four high-tier keywords and no others. -/
def cfgFourHigh : RelevanceConfig :=
  { marketKeywords :=
      { high := ["earnings", "ipo", "merger", "acquisition"]
        medium := []
        low := [] }
    weights := testConfig.weights }

/-- An invalid configuration: a negative weight and empty keyword
tiers. -/
def invalidConfig : RelevanceConfig :=
  { marketKeywords := { high := [], medium := [], low := [] }
    weights :=
      { marketKeywords := -5, stockSymbols := 10, sourceAuthority := 10,
        recency := 10 } }

/-- Aggregator fixture: a news item with score 90 and the older
timestamp T1 (ISO strings compare chronologically here). -/
def itemT1 : MarketDataItem :=
  { id := "a", source := "news", timestamp := "2025-01-01T00:00:00Z",
    relevanceScore := 90, symbols := [], marketTags := [] }

/-- Aggregator fixture: a news item with score 90 and the newer
timestamp T2. -/
def itemT2 : MarketDataItem :=
  { id := "b", source := "news", timestamp := "2025-01-02T00:00:00Z",
    relevanceScore := 90, symbols := [], marketTags := [] }

/-- Aggregator fixture: a news item with score 50. -/
def itemLow : MarketDataItem :=
  { id := "c", source := "news", timestamp := "2024-12-30T00:00:00Z",
    relevanceScore := 50, symbols := [], marketTags := [] }

/-- Cross-source fixture: a news item mentioning AAPL. -/
def itemNews1 : MarketDataItem :=
  { id := "n1", source := "news", timestamp := "2025-01-01T00:00:00Z",
    relevanceScore := 10, symbols := ["AAPL"], marketTags := [] }

/-- Cross-source fixture: a second news item mentioning AAPL. -/
def itemNews2 : MarketDataItem :=
  { id := "n2", source := "news", timestamp := "2025-01-01T01:00:00Z",
    relevanceScore := 10, symbols := ["AAPL"], marketTags := [] }

/-- Cross-source fixture: an email item mentioning AAPL. -/
def itemEmail1 : MarketDataItem :=
  { id := "e1", source := "email", timestamp := "2025-01-01T02:00:00Z",
    relevanceScore := 10, symbols := ["AAPL"], marketTags := [] }

/-- The invariant of the source-authority table: every stored value lies
in `[0, 100]`. -/
def authInv (m : AuthMap) : Prop :=
  ∀ p ∈ m, 0 ≤ p.2 ∧ p.2 ≤ 100

/-- The authority maps reachable by the program: the constructor map,
followed by any sequence of `updateSourceAuthority` calls (the only
operation that mutates the table). -/
inductive ReachableAuth : AuthMap → Prop where
  | init : ReachableAuth initAuthorityMap
  | update (m : AuthMap) (sourceName : String) (authority : Rat) :
      ReachableAuth m → ReachableAuth (updateSourceAuthority m sourceName authority)

/-! # Theorems -/

/-! ## Keyword-tier scoring: helper lemmas -/

/-- The score accumulated by one tier pass: the starting score plus the
point value times the number of tier keywords occurring in the text. -/
theorem kwTierPass_fst (text : String) (pts : Rat) (kws : List String)
    (acc : Rat × List String) :
    (kwTierPass text pts kws acc).1 =
      acc.1 + pts * ((kws.filter fun kw => jsIncludes text (jsToLower kw)).length : Rat) := by
  induction kws generalizing acc with
  | nil => simp [kwTierPass]
  | cons k ks ih =>
      by_cases h : jsIncludes text (jsToLower k) = true
      · have hstep : kwTierPass text pts (k :: ks) acc =
            kwTierPass text pts ks (acc.1 + pts, acc.2 ++ [k]) := by
          simp [kwTierPass, h]
        rw [hstep, ih]
        simp only [List.filter_cons, h, if_true, List.length_cons]
        push_cast
        ring
      · have hstep : kwTierPass text pts (k :: ks) acc =
            kwTierPass text pts ks acc := by
          simp [kwTierPass, h]
        rw [hstep, ih]
        simp only [List.filter_cons, h]
        simp

/-- Closed form of the tag subscore: 15 points per occurring high-tier
keyword, 8 per medium, 3 per low, capped at 100. -/
theorem marketKeywordScore_fst (cfg : RelevanceConfig) (text : String) :
    (calculateMarketKeywordScore cfg text).1 =
      min 100
        (15 * ((cfg.marketKeywords.high.filter fun kw =>
            jsIncludes text (jsToLower kw)).length : Rat) +
         8 * ((cfg.marketKeywords.medium.filter fun kw =>
            jsIncludes text (jsToLower kw)).length : Rat) +
         3 * ((cfg.marketKeywords.low.filter fun kw =>
            jsIncludes text (jsToLower kw)).length : Rat)) := by
  have hdef : (calculateMarketKeywordScore cfg text).1 =
      min 100 (kwTierPass text 3 cfg.marketKeywords.low
        (kwTierPass text 8 cfg.marketKeywords.medium
          (kwTierPass text 15 cfg.marketKeywords.high (0, [])))).1 := rfl
  rw [hdef, kwTierPass_fst, kwTierPass_fst, kwTierPass_fst]
  congr 1
  push_cast
  ring

/-- Claim C3 (amended): in tag extraction each matched phrase contributes
points once per distinct phrase (not per occurrence in the text), with
tier values high = 15, medium = 8 and low = 3 (not 25/15/8), and the
running sum is clamped to `[0, 100]`; 4 high-tier matches therefore
yield 60, and 7 are needed to saturate the subscore. -/
theorem claim3_tag_subscore_points (cfg : RelevanceConfig) (text : String) :
    (calculateMarketKeywordScore cfg text).1 =
      min 100
        (15 * ((cfg.marketKeywords.high.filter fun kw =>
            jsIncludes text (jsToLower kw)).length : Rat) +
         8 * ((cfg.marketKeywords.medium.filter fun kw =>
            jsIncludes text (jsToLower kw)).length : Rat) +
         3 * ((cfg.marketKeywords.low.filter fun kw =>
            jsIncludes text (jsToLower kw)).length : Rat)) ∧
    0 ≤ (calculateMarketKeywordScore cfg text).1 ∧
    (calculateMarketKeywordScore cfg text).1 ≤ 100 := by
  refine ⟨marketKeywordScore_fst cfg text, ?_, ?_⟩
  · rw [marketKeywordScore_fst]
    have h1 : (0:Rat) ≤
        15 * ((cfg.marketKeywords.high.filter fun kw =>
            jsIncludes text (jsToLower kw)).length : Rat) +
        8 * ((cfg.marketKeywords.medium.filter fun kw =>
            jsIncludes text (jsToLower kw)).length : Rat) +
        3 * ((cfg.marketKeywords.low.filter fun kw =>
            jsIncludes text (jsToLower kw)).length : Rat) := by positivity
    exact le_min (by norm_num) h1
  · rw [marketKeywordScore_fst]
    exact min_le_left _ _

/-- Claim C3 counterexample: with four high-tier phrases all matched (and
no other keywords), the tag subscore is 60, not 100 — high-tier matches
are worth 15 points each, not 25. -/
theorem claim3_counterexample :
    (calculateMarketKeywordScore cfgFourHigh
        "earnings ipo merger acquisition").1 = 60 ∧
    ¬ ((calculateMarketKeywordScore cfgFourHigh
        "earnings ipo merger acquisition").1 = 100) := by
  have h1 : ((cfgFourHigh.marketKeywords.high.filter fun kw =>
      jsIncludes "earnings ipo merger acquisition" (jsToLower kw)).length : Rat)
      = 4 := by norm_cast
  have h2 : ((cfgFourHigh.marketKeywords.medium.filter fun kw =>
      jsIncludes "earnings ipo merger acquisition" (jsToLower kw)).length : Rat)
      = 0 := by norm_cast
  have h3 : ((cfgFourHigh.marketKeywords.low.filter fun kw =>
      jsIncludes "earnings ipo merger acquisition" (jsToLower kw)).length : Rat)
      = 0 := by norm_cast
  have hv : (calculateMarketKeywordScore cfgFourHigh
      "earnings ipo merger acquisition").1 = 60 := by
    rw [marketKeywordScore_fst, h1, h2, h3]
    norm_num
  exact ⟨hv, fun h => by rw [hv] at h; norm_num at h⟩

/-! ## Stock symbol subscore -/

/-- Collapsing the two successive caps of `calculateStockSymbolScore`
into the single cap of the specification formula. -/
theorem min_cap_bonus (s m : Nat) :
    min (100:Rat) (min 100 ((s:Rat) * 20) + (m:Rat) * 10) =
      min (100:Rat) (20 * (s:Rat) + 10 * (m:Rat)) := by
  rcases le_total ((s:Rat) * 20) 100 with h | h
  · rw [min_eq_right h]
    congr 1
    ring
  · rw [min_eq_left h]
    have hm : (0:Rat) ≤ (m:Rat) * 10 := by positivity
    rw [min_eq_left (by linarith), min_eq_left (by linarith)]

/-- Closed form of `calculateStockSymbolScore`: the subscore is
`min(100, 20·|symbols| + 10·|symbols ∩ majorSymbols|)` over the
deduplicated, filtered symbol list. -/
theorem calculateStockSymbolScore_eq (text : String) :
    calculateStockSymbolScore text =
      (min 100
        (20 * ((filterValidStockSymbols (jsDedup (stockSymbolMatches text))).length : Rat) +
         10 * (((filterValidStockSymbols (jsDedup (stockSymbolMatches text))).filter
            fun s => majorSymbols.contains s).length : Rat)),
       filterValidStockSymbols (jsDedup (stockSymbolMatches text))) := by
  unfold calculateStockSymbolScore
  by_cases h : (filterValidStockSymbols (jsDedup (stockSymbolMatches text))).length = 0
  · have hnil : filterValidStockSymbols (jsDedup (stockSymbolMatches text)) = [] :=
      List.length_eq_zero.mp h
    simp [hnil]
  · simp only [h, if_false]
    rw [min_cap_bonus]

/-- Claim C9: the symbol subscore reported by `scoreContent` equals
`min(100, 20·|symbols| + 10·|symbols ∩ majorSymbols|)`, where the symbol
list is obtained by regex-matching the original-case `title + " " +
content`, deduplicating, and applying the length/denylist filter; a text
of denylisted words only yields no symbols and subscore 0. -/
theorem claim9_symbol_subscore (jsExp : Rat → Rat) (st : ScorerState)
    (title content sourceName : String) (timestamp : JSNum) (now : Rat) :
    ((scoreContent jsExp st title content sourceName timestamp now).bdStockSymbols =
        min 100
          (20 * ((filterValidStockSymbols
              (jsDedup (stockSymbolMatches (title ++ " " ++ content)))).length : Rat) +
           10 * (((filterValidStockSymbols
              (jsDedup (stockSymbolMatches (title ++ " " ++ content)))).filter
                fun s => majorSymbols.contains s).length : Rat)) ∧
      (scoreContent jsExp st title content sourceName timestamp now).symbols =
        filterValidStockSymbols (jsDedup (stockSymbolMatches (title ++ " " ++ content)))) ∧
    calculateStockSymbolScore "THE AND FOR ARE" = (0, []) := by
  refine ⟨⟨?_, ?_⟩, ?_⟩
  · have hdef : (scoreContent jsExp st title content sourceName timestamp now).bdStockSymbols =
        (calculateStockSymbolScore (title ++ " " ++ content)).1 := rfl
    rw [hdef, calculateStockSymbolScore_eq]
  · have hdef : (scoreContent jsExp st title content sourceName timestamp now).symbols =
        (calculateStockSymbolScore (title ++ " " ++ content)).2 := rfl
    rw [hdef, calculateStockSymbolScore_eq]
  · have hnil : filterValidStockSymbols (jsDedup (stockSymbolMatches "THE AND FOR ARE")) = [] := by
      decide
    unfold calculateStockSymbolScore
    simp [hnil]

/-! ## Sentiment -/

/-- Claim C6: `extractSentiment` counts, for each fixed word list, the
members occurring as substrings of `lowercase(title + " " + content)`,
and returns `positive` exactly when the positive count strictly exceeds
the negative count, `negative` exactly in the reverse case, and
`neutral` exactly on ties; the empty text is neutral. -/
theorem claim6_sentiment (title content : String) :
    (extractSentiment title content = .positive ↔
      negativeWords.countP (fun w => jsIncludes (jsToLower (title ++ " " ++ content)) w) <
        positiveWords.countP (fun w => jsIncludes (jsToLower (title ++ " " ++ content)) w)) ∧
    (extractSentiment title content = .negative ↔
      positiveWords.countP (fun w => jsIncludes (jsToLower (title ++ " " ++ content)) w) <
        negativeWords.countP (fun w => jsIncludes (jsToLower (title ++ " " ++ content)) w)) ∧
    (extractSentiment title content = .neutral ↔
      positiveWords.countP (fun w => jsIncludes (jsToLower (title ++ " " ++ content)) w) =
        negativeWords.countP (fun w => jsIncludes (jsToLower (title ++ " " ++ content)) w)) ∧
    extractSentiment "" "" = .neutral := by
  have hp : positiveWords.countP (fun w => jsIncludes (jsToLower (title ++ " " ++ content)) w) =
      (positiveWords.filter (fun w => jsIncludes (jsToLower (title ++ " " ++ content)) w)).length :=
    List.countP_eq_length_filter _ _
  have hn : negativeWords.countP (fun w => jsIncludes (jsToLower (title ++ " " ++ content)) w) =
      (negativeWords.filter (fun w => jsIncludes (jsToLower (title ++ " " ++ content)) w)).length :=
    List.countP_eq_length_filter _ _
  refine ⟨?_, ?_, ?_, by decide⟩ <;>
    · rw [hp, hn]
      unfold extractSentiment
      dsimp only
      split_ifs with h1 h2 <;> simp_all <;> omega

/-! ## JSNum computation lemmas -/

theorem JSNum.sub_num (a b : Rat) : JSNum.sub (.num a) (.num b) = .num (a - b) := rfl

theorem JSNum.add_num (a b : Rat) : JSNum.add (.num a) (.num b) = .num (a + b) := rfl

theorem JSNum.mulC_num (a b : Rat) : JSNum.mulC (.num a) b = .num (a * b) := rfl

theorem JSNum.divC_num {b : Rat} (a : Rat) (h : b ≠ 0) :
    JSNum.divC (.num a) b = .num (a / b) := by
  simp [JSNum.divC, h]

theorem jsMin_num (c a : Rat) : jsMin c (.num a) = .num (min c a) := rfl

theorem jsMax_num (c a : Rat) : jsMax c (.num a) = .num (max c a) := rfl

/-- For a timestamp that parsed, the recency score is a finite number,
and it lies in `[0, 100]` whenever the abstracted `Math.exp` maps
nonpositive arguments into `[0, 1]` and the window is positive. -/
theorem getRecencyScore_num (jsExp : Rat → Rat) (now t maxHours : Rat)
    (hmax : 0 < maxHours)
    (hexp : ∀ x : Rat, x ≤ 0 → 0 ≤ jsExp x ∧ jsExp x ≤ 1) :
    ∃ rq : Rat, getRecencyScore jsExp now (.num t) maxHours = .num rq ∧
      0 ≤ rq ∧ rq ≤ 100 := by
  unfold getRecencyScore
  rw [JSNum.sub_num, JSNum.divC_num _ (by norm_num)]
  set age : Rat := (now - t) / (1000 * 60 * 60) with hage
  by_cases h1 : age < 0
  · refine ⟨0, ?_, le_refl 0, by norm_num⟩
    simp [JSNum.ltB, h1]
  · by_cases h2 : maxHours < age
    · refine ⟨0, ?_, le_refl 0, by norm_num⟩
      simp [JSNum.ltB, JSNum.gtB, h1, h2]
    · have hage0 : 0 ≤ age := le_of_not_lt h1
      have harg : age * -1 / (maxHours / 3) ≤ 0 := by
        apply div_nonpos_of_nonpos_of_nonneg
        · linarith
        · positivity
      refine ⟨jsExp (age * -1 / (maxHours / 3)) * 100, ?_, ?_, ?_⟩
      · rw [if_neg (by simp [JSNum.ltB]; exact le_of_not_lt h1), if_neg (by simp [JSNum.gtB]; exact le_of_not_lt h2)]
        rw [JSNum.mulC_num, JSNum.divC_num _ (by positivity)]
        rfl
      · have := (hexp _ harg).1
        positivity
      · have h01 := hexp _ harg
        nlinarith [h01.1, h01.2]

/-- For a timestamp that parsed and a nonzero total weight, the final
score of `scoreContent` is the clamped, weight-normalised average of the
four subscores. -/
theorem scoreContent_score_closed_form (jsExp : Rat → Rat) (st : ScorerState)
    (title content sourceName : String) (t now : Rat)
    (hexp : ∀ x : Rat, x ≤ 0 → 0 ≤ jsExp x ∧ jsExp x ≤ 1)
    (hTW : st.config.weights.marketKeywords + st.config.weights.stockSymbols +
        st.config.weights.sourceAuthority + st.config.weights.recency ≠ 0) :
    ∃ rq : Rat,
      (scoreContent jsExp st title content sourceName (.num t) now).bdRecency = .num rq ∧
      0 ≤ rq ∧ rq ≤ 100 ∧
      (scoreContent jsExp st title content sourceName (.num t) now).score =
        .num (min 100 (max 0
          (((scoreContent jsExp st title content sourceName (.num t) now).bdMarketKeywords / 100 *
                st.config.weights.marketKeywords +
              (scoreContent jsExp st title content sourceName (.num t) now).bdStockSymbols / 100 *
                st.config.weights.stockSymbols +
              (scoreContent jsExp st title content sourceName (.num t) now).bdSourceAuthority / 100 *
                st.config.weights.sourceAuthority +
              rq / 100 * st.config.weights.recency) /
            (st.config.weights.marketKeywords + st.config.weights.stockSymbols +
              st.config.weights.sourceAuthority + st.config.weights.recency) * 100))) := by
  obtain ⟨rq, hrq, hrq0, hrq100⟩ :=
    getRecencyScore_num jsExp now t 48 (by norm_num) hexp
  have hbd : (scoreContent jsExp st title content sourceName (.num t) now).bdRecency =
      calculateRecencyScore jsExp now (.num t) := rfl
  have hrecency : calculateRecencyScore jsExp now (.num t) = .num rq := hrq
  refine ⟨rq, by rw [hbd, hrecency], hrq0, hrq100, ?_⟩
  show jsMin 100 (jsMax 0 ((JSNum.divC (JSNum.add
      (JSNum.num ((calculateMarketKeywordScore st.config
          (jsToLower (title ++ " " ++ content))).1 / 100 * st.config.weights.marketKeywords +
        (calculateStockSymbolScore (title ++ " " ++ content)).1 / 100 *
          st.config.weights.stockSymbols +
        calculateSourceAuthorityScore st.sourceAuthorityMap sourceName / 100 *
          st.config.weights.sourceAuthority))
      (JSNum.mulC (JSNum.divC (calculateRecencyScore jsExp now (.num t)) 100)
        st.config.weights.recency))
      (st.config.weights.marketKeywords + st.config.weights.stockSymbols +
        st.config.weights.sourceAuthority + st.config.weights.recency)).mulC 100)) = _
  rw [hrecency, JSNum.divC_num _ (by norm_num), JSNum.mulC_num, JSNum.add_num,
    JSNum.divC_num _ hTW, JSNum.mulC_num, jsMax_num, jsMin_num]
  have hsub1 : (scoreContent jsExp st title content sourceName (.num t) now).bdMarketKeywords =
      (calculateMarketKeywordScore st.config (jsToLower (title ++ " " ++ content))).1 := rfl
  have hsub2 : (scoreContent jsExp st title content sourceName (.num t) now).bdStockSymbols =
      (calculateStockSymbolScore (title ++ " " ++ content)).1 := rfl
  have hsub3 : (scoreContent jsExp st title content sourceName (.num t) now).bdSourceAuthority =
      calculateSourceAuthorityScore st.sourceAuthorityMap sourceName := rfl
  rw [hsub1, hsub2, hsub3]

/-! ## Malformed timestamps (the recency NaN defect) -/

/-- Claim C1 evaluated at the failing input of the repository test suite
(`invalid-timestamp`, whose parse is `NaN`): `scoreContent` returns,
but the recency breakdown entry is `NaN` — not the documented 0 — and
the final score is `NaN` as well. -/
theorem claim1_malformed_timestamp_gives_nan :
    (scoreContent (fun _ => 1) testState "Test title" "Test content"
        "Test Source" JSNum.nan 0).bdRecency = JSNum.nan ∧
    (scoreContent (fun _ => 1) testState "Test title" "Test content"
        "Test Source" JSNum.nan 0).score = JSNum.nan ∧
    JSNum.nan ≠ JSNum.num 0 :=
  ⟨rfl, rfl, fun h => JSNum.noConfusion h⟩

/-- Claim C2 evaluated at a malformed-timestamp input: the range
invariant fails — neither the final score nor the recency subscore is a
number in `[0, 100]` (both are `NaN`), although all four weights of the
configuration are positive. -/
theorem claim2_range_invariant_violated :
    ¬ (scoreContent (fun _ => 1) testState "AAPL earnings beat"
        "strong gains today" "Bloomberg API" JSNum.nan 0).score.inRange 0 100 ∧
    ¬ (scoreContent (fun _ => 1) testState "AAPL earnings beat"
        "strong gains today" "Bloomberg API" JSNum.nan 0).bdRecency.inRange 0 100 := by
  constructor
  · rintro ⟨q, hq, -, -⟩
    have h : (scoreContent (fun _ => 1) testState "AAPL earnings beat"
        "strong gains today" "Bloomberg API" JSNum.nan 0).score = JSNum.nan := rfl
    rw [h] at hq
    exact JSNum.noConfusion hq
  · rintro ⟨q, hq, -, -⟩
    have h : (scoreContent (fun _ => 1) testState "AAPL earnings beat"
        "strong gains today" "Bloomberg API" JSNum.nan 0).bdRecency = JSNum.nan := rfl
    rw [h] at hq
    exact JSNum.noConfusion hq

/-! ## Constructor validation -/

/-- Claim C7 (amended): the `RelevanceScorer` constructor performs no
configuration validation at all — construction succeeds for every
configuration, including ones with negative weights or empty keyword
tiers, and scoring then proceeds. -/
theorem claim7_constructor_never_fails (cfg : RelevanceConfig) :
    mkRelevanceScorer cfg =
      .ok { config := cfg, sourceAuthorityMap := initAuthorityMap } := rfl

/-- Claim C7 counterexample: a configuration with a negative weight and
empty keyword tiers is accepted by the constructor (no hard error), and
the resulting scorer goes on to produce a numeric score. -/
theorem claim7_counterexample :
    mkRelevanceScorer invalidConfig =
      .ok { config := invalidConfig, sourceAuthorityMap := initAuthorityMap } ∧
    ∃ q : Rat,
      (scoreContent (fun _ => 1)
          { config := invalidConfig, sourceAuthorityMap := initAuthorityMap }
          "Test title" "Test content" "Test Source" (.num 0) 0).score = .num q := by
  refine ⟨rfl, ?_⟩
  obtain ⟨rq, -, -, -, h4⟩ :=
    scoreContent_score_closed_form (fun _ => 1)
      { config := invalidConfig, sourceAuthorityMap := initAuthorityMap }
      "Test title" "Test content" "Test Source" 0 0
      (fun _ _ => ⟨zero_le_one, le_refl 1⟩)
      (by show (-5 : Rat) + 10 + 10 + 10 ≠ 0; norm_num)
  exact ⟨_, h4⟩

/-! ## The weighted-average combination -/

/-- Claim C5 (amended): for every input whose timestamp parses (so the
recency subscore is a number) and every configuration with positive
weights, the final score equals
`100 × Σ(subscore/100 × weight) / Σ(weight)` clamped to `[0, 100]`, and
therefore lies in `[0, 100]` whether or not the weights sum to 100. -/
theorem claim5_weighted_average (jsExp : Rat → Rat) (st : ScorerState)
    (title content sourceName : String) (t now : Rat)
    (hexp : ∀ x : Rat, x ≤ 0 → 0 ≤ jsExp x ∧ jsExp x ≤ 1)
    (hw : 0 < st.config.weights.marketKeywords ∧
      0 < st.config.weights.stockSymbols ∧
      0 < st.config.weights.sourceAuthority ∧
      0 < st.config.weights.recency) :
    ∃ rq : Rat,
      (scoreContent jsExp st title content sourceName (.num t) now).bdRecency = .num rq ∧
      (scoreContent jsExp st title content sourceName (.num t) now).score =
        .num (min 100 (max 0
          (100 *
            ((scoreContent jsExp st title content sourceName (.num t) now).bdMarketKeywords / 100 *
                st.config.weights.marketKeywords +
              (scoreContent jsExp st title content sourceName (.num t) now).bdStockSymbols / 100 *
                st.config.weights.stockSymbols +
              (scoreContent jsExp st title content sourceName (.num t) now).bdSourceAuthority / 100 *
                st.config.weights.sourceAuthority +
              rq / 100 * st.config.weights.recency) /
            (st.config.weights.marketKeywords + st.config.weights.stockSymbols +
              st.config.weights.sourceAuthority + st.config.weights.recency)))) ∧
      (scoreContent jsExp st title content sourceName (.num t) now).score.inRange 0 100 := by
  obtain ⟨w1, w2, w3, w4⟩ := hw
  obtain ⟨rq, h1, -, -, h4⟩ :=
    scoreContent_score_closed_form jsExp st title content sourceName t now hexp
      (by linarith)
  refine ⟨rq, h1, ?_, ?_⟩
  · rw [h4]
    congr 2
    ring_nf
  · rw [h4]
    exact ⟨_, rfl, le_min (by norm_num) (le_max_left 0 _), min_le_left _ _⟩

/-- Witness for the amended claim C5 at a concrete instance: the
constant-1 exponential satisfies the `exp` bounds, the test
configuration has positive weights, and the conclusion holds there. -/
theorem claim5_witness :
    (∀ x : Rat, x ≤ 0 → 0 ≤ (1:Rat) ∧ (1:Rat) ≤ 1) ∧
    (0 < testState.config.weights.marketKeywords ∧
      0 < testState.config.weights.stockSymbols ∧
      0 < testState.config.weights.sourceAuthority ∧
      0 < testState.config.weights.recency) ∧
    (∃ rq : Rat,
      (scoreContent (fun _ => 1) testState "Test title" "Test content"
          "Test Source" (.num 0) 0).bdRecency = .num rq ∧
      (scoreContent (fun _ => 1) testState "Test title" "Test content"
          "Test Source" (.num 0) 0).score =
        .num (min 100 (max 0
          (100 *
            ((scoreContent (fun _ => 1) testState "Test title" "Test content"
                  "Test Source" (.num 0) 0).bdMarketKeywords / 100 *
                testState.config.weights.marketKeywords +
              (scoreContent (fun _ => 1) testState "Test title" "Test content"
                  "Test Source" (.num 0) 0).bdStockSymbols / 100 *
                testState.config.weights.stockSymbols +
              (scoreContent (fun _ => 1) testState "Test title" "Test content"
                  "Test Source" (.num 0) 0).bdSourceAuthority / 100 *
                testState.config.weights.sourceAuthority +
              rq / 100 * testState.config.weights.recency) /
            (testState.config.weights.marketKeywords + testState.config.weights.stockSymbols +
              testState.config.weights.sourceAuthority + testState.config.weights.recency)))) ∧
      (scoreContent (fun _ => 1) testState "Test title" "Test content"
          "Test Source" (.num 0) 0).score.inRange 0 100) :=
  ⟨fun _ _ => ⟨by decide, by decide⟩,
   ⟨by decide, by decide, by decide, by decide⟩,
   claim5_weighted_average (fun _ => 1) testState "Test title" "Test content"
     "Test Source" 0 0 (fun _ _ => ⟨zero_le_one, le_refl 1⟩)
     ⟨by decide, by decide, by decide, by decide⟩⟩

/-- Claim C5 counterexample (to the unamended claim): with the
all-positive test weights but a malformed timestamp, the final score is
not in `[0, 100]` — it is `NaN`. -/
theorem claim5_counterexample :
    (0 < testState.config.weights.marketKeywords ∧
      0 < testState.config.weights.stockSymbols ∧
      0 < testState.config.weights.sourceAuthority ∧
      0 < testState.config.weights.recency) ∧
    ¬ (scoreContent (fun _ => 1) testState "Fed Raises Rates"
        "markets rally strongly" "Reuters API" JSNum.nan 0).score.inRange 0 100 := by
  refine ⟨⟨by decide, by decide, by decide, by decide⟩, ?_⟩
  rintro ⟨q, hq, -, -⟩
  have h : (scoreContent (fun _ => 1) testState "Fed Raises Rates"
      "markets rally strongly" "Reuters API" JSNum.nan 0).score = JSNum.nan := rfl
  rw [h] at hq
  exact JSNum.noConfusion hq

/-! ## Source authority invariant -/

/-- `mapSet` preserves the `[0, 100]` invariant when the stored value is
itself in range. -/
theorem authInv_mapSet : ∀ (m : AuthMap) (k : String) (v : Rat),
    authInv m → 0 ≤ v → v ≤ 100 → authInv (mapSet m k v)
  | [], k, v, _, h0, h1 => by
      intro p hp
      simp only [mapSet, List.mem_singleton] at hp
      subst hp
      exact ⟨h0, h1⟩
  | (k2, v2) :: rest, k, v, hm, h0, h1 => by
      intro p hp
      by_cases hk : k2 = k
      · simp only [mapSet, if_pos hk] at hp
        rcases List.mem_cons.mp hp with h | h
        · subst h; exact ⟨h0, h1⟩
        · exact hm p (List.mem_cons_of_mem _ h)
      · simp only [mapSet, if_neg hk] at hp
        rcases List.mem_cons.mp hp with h | h
        · subst h; exact hm (k2, v2) (List.mem_cons_self _ _)
        · exact authInv_mapSet rest k v
            (fun q hq => hm q (List.mem_cons_of_mem _ hq)) h0 h1 p h

/-- When the exact lookup misses, the substring fallbacks and the
default of `calculateSourceAuthorityScore` produce values between 50 and
95. -/
theorem calcAuthority_fallback_bounds (m : AuthMap) (s : String)
    (h : mapGet m s = none) :
    50 ≤ calculateSourceAuthorityScore m s ∧
      calculateSourceAuthorityScore m s ≤ 95 := by
  unfold calculateSourceAuthorityScore
  rw [h]
  dsimp only
  split_ifs <;> norm_num

/-- Under the table invariant, every authority score — exact match or
fallback — lies in `[0, 100]`. -/
theorem calcAuthority_range (m : AuthMap) (s : String) (hm : authInv m) :
    0 ≤ calculateSourceAuthorityScore m s ∧
      calculateSourceAuthorityScore m s ≤ 100 := by
  cases hfind : mapGet m s with
  | some v =>
      have hv : calculateSourceAuthorityScore m s = v := by
        unfold calculateSourceAuthorityScore
        rw [hfind]
      obtain ⟨p, hp, hpv⟩ : ∃ p ∈ m, p.2 = v := by
        unfold mapGet at hfind
        cases hf : m.find? (fun p => p.1 == s) with
        | none => rw [hf] at hfind; simp at hfind
        | some pr =>
            rw [hf] at hfind
            simp at hfind
            exact ⟨pr, List.mem_of_find?_eq_some hf, hfind⟩
      have := hm p hp
      rw [hv, ← hpv]
      exact this
  | none =>
      have h := calcAuthority_fallback_bounds m s hfind
      exact ⟨by linarith [h.1], by linarith [h.2]⟩

/-- Claim C10: every authority table reachable from the constructor by
`updateSourceAuthority` calls stores only values in `[0, 100]` (updates
clamp their argument), `getSourceAuthority` always returns a value in
`[0, 100]` on such tables, and when the exact lookup misses the
substring/default fallbacks yield values between 50 and 95. -/
theorem claim10_authority_invariant :
    (∀ m : AuthMap, ReachableAuth m →
      authInv m ∧
        ∀ sourceName, 0 ≤ getSourceAuthority m sourceName ∧
          getSourceAuthority m sourceName ≤ 100) ∧
    (∀ (m : AuthMap) (sourceName : String), mapGet m sourceName = none →
      50 ≤ calculateSourceAuthorityScore m sourceName ∧
        calculateSourceAuthorityScore m sourceName ≤ 95) := by
  constructor
  · intro m hreach
    have hinv : authInv m := by
      induction hreach with
      | init =>
          intro p hp
          simp only [initAuthorityMap, List.mem_cons, List.not_mem_nil,
            or_false] at hp
          rcases hp with rfl|rfl|rfl|rfl|rfl|rfl|rfl|rfl|rfl|rfl <;>
            exact ⟨by norm_num, by norm_num⟩
      | update m2 name auth _ ih =>
          exact authInv_mapSet m2 name _ ih (le_max_left 0 _)
            (max_le (by norm_num) (min_le_left 100 _))
    exact ⟨hinv, fun s => calcAuthority_range m s hinv⟩
  · exact calcAuthority_fallback_bounds

/-- Witness for claim C10: the constructor table satisfies the
invariant, lookups on it are in range, and the fallback bound holds on
the empty table. -/
theorem claim10_witness :
    (authInv initAuthorityMap ∧
      ∀ sourceName, 0 ≤ getSourceAuthority initAuthorityMap sourceName ∧
        getSourceAuthority initAuthorityMap sourceName ≤ 100) ∧
    (50 ≤ calculateSourceAuthorityScore [] "Unknown Source" ∧
      calculateSourceAuthorityScore [] "Unknown Source" ≤ 95) :=
  ⟨claim10_authority_invariant.1 initAuthorityMap ReachableAuth.init,
   claim10_authority_invariant.2 [] "Unknown Source" rfl⟩

/-! ## Aggregator ordering -/

theorem mem_insertByScore {x y : MarketDataItem} :
    ∀ {l : List MarketDataItem}, y ∈ insertByScore x l ↔ y = x ∨ y ∈ l := by
  intro l
  induction l with
  | nil => simp [insertByScore]
  | cons z zs ih =>
      unfold insertByScore
      split_ifs with h
      · constructor
        · intro hy
          rcases List.mem_cons.mp hy with h1 | h1
          · exact Or.inl h1
          · exact Or.inr h1
        · intro hy
          rcases hy with h1 | h1
          · exact List.mem_cons.mpr (Or.inl h1)
          · exact List.mem_cons.mpr (Or.inr h1)
      · constructor
        · intro hy
          rcases List.mem_cons.mp hy with h1 | h1
          · exact Or.inr (List.mem_cons.mpr (Or.inl h1))
          · rcases ih.mp h1 with h2 | h2
            · exact Or.inl h2
            · exact Or.inr (List.mem_cons.mpr (Or.inr h2))
        · intro hy
          rcases hy with h1 | h1
          · exact List.mem_cons.mpr (Or.inr (ih.mpr (Or.inl h1)))
          · rcases List.mem_cons.mp h1 with h2 | h2
            · exact List.mem_cons.mpr (Or.inl h2)
            · exact List.mem_cons.mpr (Or.inr (ih.mpr (Or.inr h2)))

theorem insertByScore_pairwise {x : MarketDataItem} :
    ∀ {l : List MarketDataItem}, l.Pairwise scoreGE →
      (insertByScore x l).Pairwise scoreGE := by
  intro l
  induction l with
  | nil => intro _; simp [insertByScore, scoreGE]
  | cons z zs ih =>
      intro hp
      obtain ⟨hz, hzs⟩ := List.pairwise_cons.mp hp
      unfold insertByScore
      split_ifs with h
      · refine List.pairwise_cons.mpr ⟨?_, hp⟩
        intro b hb
        rcases List.mem_cons.mp hb with h1 | h1
        · subst h1; exact h
        · exact le_trans (hz b h1) h
      · refine List.pairwise_cons.mpr ⟨?_, ih hzs⟩
        intro b hb
        rcases mem_insertByScore.mp hb with h1 | h1
        · subst h1; exact le_of_lt (lt_of_not_le h)
        · exact hz b h1

theorem sortByScoreDesc_pairwise :
    ∀ l : List MarketDataItem, (sortByScoreDesc l).Pairwise scoreGE
  | [] => List.Pairwise.nil
  | _ :: xs => insertByScore_pairwise (sortByScoreDesc_pairwise xs)

theorem insertByScore_perm (x : MarketDataItem) :
    ∀ l : List MarketDataItem, (insertByScore x l).Perm (x :: l)
  | [] => List.Perm.refl _
  | z :: zs => by
      unfold insertByScore
      split_ifs with h
      · exact List.Perm.refl _
      · exact ((insertByScore_perm x zs).cons z).trans (List.Perm.swap x z zs)

theorem sortByScoreDesc_perm :
    ∀ l : List MarketDataItem, (sortByScoreDesc l).Perm l
  | [] => List.Perm.refl _
  | x :: xs =>
      (insertByScore_perm x (sortByScoreDesc xs)).trans
        ((sortByScoreDesc_perm xs).cons x)

/-- Stability of the insertion step on a sorted list, stated per score
class: inserting `x` puts it in front of none of the equal-scored
elements already present. -/
theorem filter_insertByScore (q : Rat) (x : MarketDataItem) :
    ∀ {l : List MarketDataItem}, l.Pairwise scoreGE →
      (insertByScore x l).filter (fun it => decide (it.relevanceScore = q)) =
        if x.relevanceScore = q then
          x :: l.filter (fun it => decide (it.relevanceScore = q))
        else l.filter (fun it => decide (it.relevanceScore = q)) := by
  intro l
  induction l with
  | nil =>
      intro _
      by_cases hx : x.relevanceScore = q <;>
        simp [insertByScore, List.filter, hx]
  | cons z zs ih =>
      intro hp
      obtain ⟨hz, hzs⟩ := List.pairwise_cons.mp hp
      by_cases h : z.relevanceScore ≤ x.relevanceScore
      · have hins : insertByScore x (z :: zs) = x :: z :: zs := by
          unfold insertByScore; rw [if_pos h]
        rw [hins]
        by_cases hx : x.relevanceScore = q <;>
          simp [List.filter_cons, hx]
      · have hins : insertByScore x (z :: zs) = z :: insertByScore x zs := by
          simp only [insertByScore]
          rw [if_neg h]
        rw [hins, List.filter_cons, ih hzs, List.filter_cons]
        by_cases hx : x.relevanceScore = q
        · have hzq : ¬ z.relevanceScore = q := fun hzq =>
            h (le_of_eq (hzq.trans hx.symm))
          simp [hx, hzq]
        · simp [hx]

/-- Full stability of the sort: every score class of the output is the
corresponding score class of the input, in the same order. -/
theorem sortByScoreDesc_filter (q : Rat) :
    ∀ l : List MarketDataItem,
      (sortByScoreDesc l).filter (fun it => decide (it.relevanceScore = q)) =
        l.filter (fun it => decide (it.relevanceScore = q))
  | [] => rfl
  | x :: xs => by
      have h := filter_insertByScore q x (sortByScoreDesc_pairwise xs)
      unfold sortByScoreDesc
      rw [h, sortByScoreDesc_filter q xs, List.filter_cons]
      by_cases hx : x.relevanceScore = q <;> simp [hx]

/-- Claim C4 (amended): the aggregator sorts merged items by score
descending with a stable sort — ties keep the merged input order, and no
timestamp comparison is made; in the 90/90/50 scenario `keyEvents[0]` is
the tied item that comes first in the merged input (here the one with
the older timestamp T1). -/
theorem claim4_aggregator_ordering :
    (∀ l : List MarketDataItem,
      (sortByScoreDesc l).Pairwise scoreGE ∧
      (sortByScoreDesc l).Perm l ∧
      ∀ q : Rat,
        (sortByScoreDesc l).filter (fun it => decide (it.relevanceScore = q)) =
          l.filter (fun it => decide (it.relevanceScore = q))) ∧
    (aggregateSnapshot [itemT1, itemT2, itemLow]).keyEvents.head? = some itemT1 := by
  refine ⟨fun l => ⟨sortByScoreDesc_pairwise l, sortByScoreDesc_perm l,
    fun q => sortByScoreDesc_filter q l⟩, ?_⟩
  decide

/-- Claim C4 counterexample: with two equal-scored news items where the
one with the newer timestamp T2 comes second in the merged input,
`keyEvents[0]` is the T1 item, not the T2 item the claim requires. -/
theorem claim4_counterexample :
    (aggregateSnapshot [itemT1, itemT2, itemLow]).keyEvents.head? ≠ some itemT2 ∧
    (aggregateSnapshot [itemT1, itemT2, itemLow]).keyEvents.head? = some itemT1 ∧
    itemT1.relevanceScore = itemT2.relevanceScore ∧
    itemT1.timestamp ≠ itemT2.timestamp := by
  refine ⟨?_, ?_, ?_, ?_⟩ <;> decide

/-! ## Cross-source pattern counting -/

theorem mem_setInsert [DecidableEq α] (ss : List α) (s y : α) :
    y ∈ setInsert ss s ↔ y ∈ ss ∨ y = s := by
  unfold setInsert
  split_ifs with h
  · constructor
    · exact Or.inl
    · rintro (hy | rfl)
      · exact hy
      · exact h
  · simp [List.mem_append]

theorem nodup_setInsert [DecidableEq α] {ss : List α} (h : ss.Nodup) (s : α) :
    (setInsert ss s).Nodup := by
  unfold setInsert
  split_ifs with hmem
  · exact h
  · simp [List.nodup_append, h, hmem]

theorem mem_foldl_setInsert [DecidableEq α] :
    ∀ (l acc : List α) (y : α),
      y ∈ l.foldl setInsert acc ↔ y ∈ acc ∨ y ∈ l
  | [], acc, y => by simp
  | x :: xs, acc, y => by
      rw [List.foldl_cons, mem_foldl_setInsert xs (setInsert acc x) y,
        mem_setInsert]
      simp [or_assoc]

theorem nodup_foldl_setInsert [DecidableEq α] :
    ∀ (l acc : List α), acc.Nodup → (l.foldl setInsert acc).Nodup
  | [], _, h => h
  | x :: xs, acc, h =>
      nodup_foldl_setInsert xs (setInsert acc x) (nodup_setInsert h x)

theorem mem_setOfList [DecidableEq α] (l : List α) (y : α) :
    y ∈ setOfList l ↔ y ∈ l := by
  unfold setOfList
  rw [mem_foldl_setInsert]
  simp

theorem nodup_setOfList [DecidableEq α] (l : List α) : (setOfList l).Nodup :=
  nodup_foldl_setInsert l [] List.nodup_nil

theorem setOfList_concat [DecidableEq α] (l : List α) (x : α) :
    setOfList (l ++ [x]) = setInsert (setOfList l) x := by
  unfold setOfList
  rw [List.foldl_append]
  rfl

/-- Unfolding `addMention` on a matching head entry. -/
theorem addMention_cons_hit (key src : String) (e : String × List String × Nat)
    (rest : List (String × List String × Nat)) (h : e.1 = key) :
    addMention key src (e :: rest) =
      (e.1, setInsert e.2.1 src, e.2.2 + 1) :: rest := by
  simp only [addMention]
  rw [if_pos h]
  rfl

/-- Unfolding `addMention` on a non-matching head entry. -/
theorem addMention_cons_miss (key src : String) (e : String × List String × Nat)
    (rest : List (String × List String × Nat)) (h : ¬ e.1 = key) :
    addMention key src (e :: rest) = e :: addMention key src rest := by
  simp only [addMention]
  rw [if_neg h]

/-- The effect of `addMention` on a counts map whose entries are indexed
by a duplicate-free key list, when the key is present. -/
theorem addMention_map_mem (src key : String)
    (f : String → List String × Nat) :
    ∀ keys : List String, keys.Nodup → key ∈ keys →
      addMention key src (keys.map fun k => (k, f k)) =
        keys.map fun k =>
          (k, if k = key then (setInsert (f k).1 src, (f k).2 + 1) else f k) := by
  intro keys
  induction keys with
  | nil => intro _ h; exact absurd h (List.not_mem_nil _)
  | cons k0 ks ih =>
      intro hnd hmem
      obtain ⟨hk0, hknd⟩ := List.nodup_cons.mp hnd
      by_cases hk : k0 = key
      · subst hk
        rw [List.map_cons, addMention_cons_hit k0 src (k0, f k0) _ rfl,
          List.map_cons, if_pos (rfl : k0 = k0)]
        congr 1
        refine (List.map_congr_left ?_).symm
        intro k hkmem
        have hne : ¬ k = k0 := fun h => hk0 (h ▸ hkmem)
        rw [if_neg hne]
      · have hmem2 : key ∈ ks := by
          rcases List.mem_cons.mp hmem with h | h
          · exact absurd h.symm hk
          · exact h
        rw [List.map_cons, addMention_cons_miss key src (k0, f k0) _ hk,
          ih hknd hmem2, List.map_cons, if_neg hk]

/-- The effect of `addMention` when the key is absent: a fresh entry is
appended. -/
theorem addMention_map_not_mem (src key : String)
    (f : String → List String × Nat) :
    ∀ keys : List String, key ∉ keys →
      addMention key src (keys.map fun k => (k, f k)) =
        (keys.map fun k => (k, f k)) ++ [(key, [src], 1)] := by
  intro keys
  induction keys with
  | nil => intro _; rfl
  | cons k0 ks ih =>
      intro hmem
      have hk : ¬ k0 = key := fun h => hmem (h ▸ List.mem_cons_self _ _)
      have hmem2 : key ∉ ks := fun h => hmem (List.mem_cons_of_mem _ h)
      rw [List.map_cons, addMention_cons_miss key src (k0, f k0) _ hk,
        ih hmem2, List.cons_append]

theorem mentionSrcs_concat (ms : List (String × String)) (e : String × String)
    (k : String) :
    mentionSrcs (ms ++ [e]) k =
      mentionSrcs ms k ++ (if e.1 = k then [e.2] else []) := by
  unfold mentionSrcs
  rw [List.filter_append, List.map_append]
  congr 1
  by_cases h : e.1 = k <;> simp [List.filter, h]

theorem buildCounts_concat (ms : List (String × String)) (e : String × String) :
    buildCounts (ms ++ [e]) = addMention e.1 e.2 (buildCounts ms) := by
  unfold buildCounts
  rw [List.foldl_append]
  rfl

/-- The counts map built by folding `addMention` over the mention events
is exactly the intended per-key summary: one entry per distinct key in
first-mention order, carrying the distinct source kinds and the total
occurrence count. -/
theorem buildCounts_eq_spec (ms : List (String × String)) :
    buildCounts ms = countsSpec ms := by
  induction ms using List.reverseRecOn with
  | nil => rfl
  | append_singleton ms e ih =>
      rw [buildCounts_concat, ih]
      unfold countsSpec
      by_cases he : e.1 ∈ setOfList (ms.map Prod.fst)
      · have hkeys : setOfList ((ms ++ [e]).map Prod.fst) =
            setOfList (ms.map Prod.fst) := by
          rw [List.map_append, List.map_singleton, setOfList_concat]
          unfold setInsert
          rw [if_pos he]
        rw [addMention_map_mem e.2 e.1 _ _ (nodup_setOfList _) he, hkeys]
        refine List.map_congr_left ?_
        intro k hkmem
        by_cases hek : k = e.1
        · rw [if_pos hek]
          have hsrcs : mentionSrcs (ms ++ [e]) k = mentionSrcs ms k ++ [e.2] := by
            rw [mentionSrcs_concat, if_pos hek.symm]
          unfold sourceKindsOf occCount
          rw [hsrcs, setOfList_concat, List.length_append]
          simp
        · rw [if_neg hek]
          have hsrcs : mentionSrcs (ms ++ [e]) k = mentionSrcs ms k := by
            rw [mentionSrcs_concat, if_neg (fun h => hek h.symm), List.append_nil]
          unfold sourceKindsOf occCount
          rw [hsrcs]
      · have hkeys : setOfList ((ms ++ [e]).map Prod.fst) =
            setOfList (ms.map Prod.fst) ++ [e.1] := by
          rw [List.map_append, List.map_singleton, setOfList_concat]
          unfold setInsert
          rw [if_neg he]
        rw [addMention_map_not_mem e.2 e.1 _ _ he, hkeys, List.map_append]
        congr 1
        · refine List.map_congr_left ?_
          intro k hkmem
          have hek : ¬ e.1 = k := fun h => he (h ▸ hkmem)
          have hsrcs : mentionSrcs (ms ++ [e]) k = mentionSrcs ms k := by
            rw [mentionSrcs_concat, if_neg hek, List.append_nil]
          unfold sourceKindsOf occCount
          rw [hsrcs]
        · have hnotms : e.1 ∉ ms.map Prod.fst :=
            fun h => he ((mem_setOfList _ _).mpr h)
          have hnil : mentionSrcs ms e.1 = [] := by
            unfold mentionSrcs
            have : ms.filter (fun e2 => decide (e2.1 = e.1)) = [] := by
              rw [List.filter_eq_nil_iff]
              intro a ha
              simp only [decide_eq_true_eq]
              intro hae
              exact hnotms (hae ▸ List.mem_map_of_mem Prod.fst ha)
            rw [this, List.map_nil]
          have hsrcs : mentionSrcs (ms ++ [e]) e.1 = [e.2] := by
            rw [mentionSrcs_concat, hnil, if_pos rfl, List.nil_append]
          simp only [List.map_singleton]
          unfold sourceKindsOf occCount
          rw [hsrcs]
          simp [setOfList, setInsert]

/-- The nested per-item/per-key counting loops are the fold of
`addMention` over the flattened mention-event sequence. -/
theorem counts_foldl_eq (proj : MarketDataItem → List String) :
    ∀ (allData : List MarketDataItem) (m0 : List (String × List String × Nat)),
      allData.foldl (fun m item =>
          (proj item).foldl (fun m2 s => addMention s item.source m2) m) m0 =
        (allData.flatMap fun it => (proj it).map fun s => (s, it.source)).foldl
          (fun m e => addMention e.1 e.2 m) m0
  | [], _ => rfl
  | it :: rest, m0 => by
      have hinner : ((proj it).map fun s => (s, it.source)).foldl
          (fun m e => addMention e.1 e.2 m) m0 =
          (proj it).foldl (fun m2 s => addMention s it.source m2) m0 := by
        rw [List.foldl_map]
      rw [List.foldl_cons, List.flatMap_cons, List.foldl_append, hinner]
      exact counts_foldl_eq proj rest _

theorem symbolCounts_eq_spec (allData : List MarketDataItem) :
    symbolCounts allData = countsSpec (symMentions allData) :=
  (counts_foldl_eq (fun it => it.symbols) allData []).trans
    (buildCounts_eq_spec (symMentions allData))

theorem tagCounts_eq_spec (allData : List MarketDataItem) :
    tagCounts allData = countsSpec (tagMentions allData) :=
  (counts_foldl_eq (fun it => it.marketTags) allData []).trans
    (buildCounts_eq_spec (tagMentions allData))

/-- A `filterMap` with a guarded `some` is a `filter` followed by a
`map`. -/
theorem filterMap_ite {α β : Type} (p : α → Prop) [DecidablePred p]
    (g : α → β) :
    ∀ l : List α,
      (l.filterMap fun a => if p a then some (g a) else none) =
        (l.filter fun a => decide (p a)).map g
  | [] => rfl
  | x :: xs => by
      by_cases h : p x <;>
        simp [List.filterMap_cons, List.filter_cons, h, filterMap_ite p g xs]

/-- Emitting patterns from a spec-shaped counts map is a filter over its
keys. -/
theorem patterns_of_countsSpec (ms : List (String × String)) (cmin : Nat)
    (fmt : String → List String → String) :
    ((countsSpec ms).filterMap fun e =>
        if 2 ≤ e.2.1.length ∧ cmin ≤ e.2.2 then some (fmt e.1 e.2.1) else none) =
      ((setOfList (ms.map Prod.fst)).filter fun k =>
          decide (2 ≤ (sourceKindsOf ms k).length ∧ cmin ≤ occCount ms k)).map
        (fun k => fmt k (sourceKindsOf ms k)) := by
  unfold countsSpec
  generalize setOfList (ms.map Prod.fst) = keys
  induction keys with
  | nil => rfl
  | cons k ks ih =>
      by_cases h : 2 ≤ (sourceKindsOf ms k).length ∧ cmin ≤ occCount ms k <;>
        simp [List.filterMap_cons, List.filter_cons, h, ih]

/-- Claim C8: the cross-source pattern list is exactly — in order — one
pattern per symbol mentioned in at least 2 distinct source kinds with at
least 3 total mentions, followed by one pattern per tag mentioned in at
least 2 distinct source kinds with at least 4 total mentions, the whole
truncated to 5 entries (symbol patterns therefore take priority); in
particular a symbol seen twice within a single kind yields no pattern,
and one seen 3 times across news and email yields exactly one. -/
theorem claim8_cross_source_patterns :
    (∀ allData : List MarketDataItem,
      identifyCrossSourcePatterns allData =
        (((setOfList ((symMentions allData).map Prod.fst)).filter fun k =>
              decide (2 ≤ (sourceKindsOf (symMentions allData) k).length ∧
                3 ≤ occCount (symMentions allData) k)).map
            (fun k => symbolPatternString k (sourceKindsOf (symMentions allData) k)) ++
          ((setOfList ((tagMentions allData).map Prod.fst)).filter fun k =>
              decide (2 ≤ (sourceKindsOf (tagMentions allData) k).length ∧
                4 ≤ occCount (tagMentions allData) k)).map
            (fun k => tagPatternString k (sourceKindsOf (tagMentions allData) k))).take 5) ∧
    identifyCrossSourcePatterns [itemNews1, itemNews2] = [] ∧
    identifyCrossSourcePatterns [itemNews1, itemNews2, itemEmail1] =
      ["AAPL mentioned across 2 sources (news, email)"] := by
  refine ⟨?_, by decide, by decide⟩
  intro allData
  unfold identifyCrossSourcePatterns
  rw [symbolCounts_eq_spec, tagCounts_eq_spec,
    patterns_of_countsSpec (symMentions allData) 3 symbolPatternString,
    patterns_of_countsSpec (tagMentions allData) 4 tagPatternString]
